import Mathlib

/-
Shallow embedding of the Voice-Extraction-SCD repository
(src/extract_voices.py and src/scd_n_files_and_save_all_voices.py).

Modelling conventions:
- An AudioBuffer is the decoded PCM audio of a pydub AudioSegment, modelled
  as a list of samples at one sample per millisecond; slicing
  audio[a : b] in pydub is Python slice semantics over milliseconds,
  i.e. (audio.take b).drop a, which silently clamps out-of-range bounds.
- Diarization turn boundaries are whole seconds (turn.start, turn.end);
  the code multiplies by 1000 to index milliseconds, as in
  audio[turn.start * 1000 : turn.end * 1000].
- A Python dict keyed by speaker label is modelled as an insertion-ordered
  association list: a new key is appended at the end, an existing key is
  updated in place; this is exactly CPython dict iteration order.
- The file system is a map from path strings to file contents; a file on
  disk is either a well-formed WAV (carrying its decoded buffer) or a
  foreign/corrupt file on which AudioSegment.from_wav raises.
- Exceptions in the scripts are unhandled; a computation that can raise is
  modelled as Except FS FS whose error payload is the file-system state at
  the moment the exception propagates.
-/

namespace VoiceSCD

/-- Decoded PCM audio, one sample per millisecond. -/
abbrev AudioBuffer := List Nat

/-- One diarization turn: start and end in whole seconds plus the speaker
label, as yielded by diarization.itertracks(yield_label=True). -/
structure Segment where
  start : Nat
  end_ : Nat
  speaker : String
deriving DecidableEq, Repr

/-- Embedding of segment = audio[turn.start * 1000 : turn.end * 1000]
(scd_n_files_and_save_all_voices.py line 54, extract_voices.py line 107).
Python slice semantics clamp both bounds to the buffer length. -/
def extract (audio : AudioBuffer) (g : Segment) : AudioBuffer :=
  (audio.take (g.end_ * 1000)).drop (g.start * 1000)

/-- Insertion-ordered map from speaker label to accumulated audio,
modelling the Python dict speaker_segments. -/
abbrev SpeakerMap := List (String × AudioBuffer)

/-- Dict lookup: first (unique) entry with the given key. -/
def lookupA : SpeakerMap → String → Option AudioBuffer
  | [], _ => none
  | (k, v) :: rest, s => if k = s then some v else lookupA rest s

/-- Keys of the map in insertion order, as Python dict iteration yields them. -/
def keysOf (m : SpeakerMap) : List String :=
  m.map Prod.fst

/-- One iteration of the grouping loop (scd_n_files_and_save_all_voices.py
lines 50-55): if the speaker is not yet a key, it is inserted with an empty
buffer (at the end, per dict insertion order), then the slice is appended to
that speaker's buffer. -/
def addSegment : SpeakerMap → String → AudioBuffer → SpeakerMap
  | [], s, sl => [(s, sl)]
  | (k, v) :: rest, s, sl =>
    if k = s then (k, v ++ sl) :: rest else (k, v) :: addSegment rest s sl

/-- The grouping loop over the whole diarized segment stream of one source
file (scd_n_files_and_save_all_voices.py lines 45-55). -/
def speaker_segments (audio : AudioBuffer) (stream : List Segment) : SpeakerMap :=
  stream.foldl (fun m g => addSegment m g.speaker (extract audio g)) []

/-- Slices extracted for one speaker, concatenated in emission order:
the expected content of that speaker's finalized buffer. -/
def slicesFor (audio : AudioBuffer) (spk : String) : List Segment → AudioBuffer
  | [] => []
  | g :: rest =>
    if g.speaker = spk then extract audio g ++ slicesFor audio spk rest
    else slicesFor audio spk rest

/-- Labels of a stream in order of first occurrence. -/
def firstSeenFrom (acc : List String) (l : List String) : List String :=
  l.foldl (fun a x => if x ∈ a then a else a ++ [x]) acc

/-- Labels of a stream in order of first occurrence, starting from nothing. -/
def firstSeen (l : List String) : List String :=
  firstSeenFrom [] l

theorem lookupA_addSegment_self (m : SpeakerMap) (s : String) (sl : AudioBuffer) :
    lookupA (addSegment m s sl) s = some ((lookupA m s).getD [] ++ sl) := by
  induction m with
  | nil => simp [addSegment, lookupA]
  | cons p rest ih =>
    obtain ⟨k, v⟩ := p
    by_cases h : k = s
    · subst h
      simp [addSegment, lookupA]
    · simp [addSegment, lookupA, h, ih]

theorem lookupA_addSegment_ne (m : SpeakerMap) (s t : String) (sl : AudioBuffer)
    (h : t ≠ s) : lookupA (addSegment m s sl) t = lookupA m t := by
  induction m with
  | nil =>
    have hst : ¬ s = t := fun hc => h hc.symm
    simp [addSegment, lookupA, hst]
  | cons p rest ih =>
    obtain ⟨k, v⟩ := p
    by_cases hk : k = s
    · subst hk
      have hkt : ¬ k = t := fun hc => h hc.symm
      simp [addSegment, lookupA, hkt]
    · simp only [addSegment, if_neg hk, lookupA]
      by_cases hkt : k = t
      · simp [hkt]
      · simp [hkt, ih]

theorem keysOf_addSegment (m : SpeakerMap) (s : String) (sl : AudioBuffer) :
    keysOf (addSegment m s sl) =
      if s ∈ keysOf m then keysOf m else keysOf m ++ [s] := by
  unfold keysOf
  induction m with
  | nil => simp [addSegment]
  | cons p rest ih =>
    obtain ⟨k, v⟩ := p
    by_cases h : k = s
    · subst h
      simp [addSegment]
    · have h' : ¬ s = k := fun hc => h hc.symm
      simp only [addSegment, if_neg h, List.map_cons, List.mem_cons, h', false_or]
      rw [ih]
      by_cases hm : s ∈ rest.map Prod.fst
      · simp [hm]
      · simp [hm]

theorem lookupA_fold_some (audio : AudioBuffer) (stream : List Segment) :
    ∀ (m : SpeakerMap) (spk : String) (b : AudioBuffer), lookupA m spk = some b →
      lookupA (stream.foldl (fun m g => addSegment m g.speaker (extract audio g)) m) spk
        = some (b ++ slicesFor audio spk stream) := by
  induction stream with
  | nil => intro m spk b h; simpa [slicesFor] using h
  | cons g rest ih =>
    intro m spk b h
    rw [List.foldl_cons]
    by_cases hs : g.speaker = spk
    · have h1 : lookupA (addSegment m g.speaker (extract audio g)) spk
          = some (b ++ extract audio g) := by
        rw [hs, lookupA_addSegment_self]
        simp [h]
      rw [ih _ _ _ h1]
      simp [slicesFor, hs, List.append_assoc]
    · have hne : spk ≠ g.speaker := fun hc => hs hc.symm
      have h1 : lookupA (addSegment m g.speaker (extract audio g)) spk = some b := by
        rw [lookupA_addSegment_ne _ _ _ _ hne]; exact h
      rw [ih _ _ _ h1]
      simp [slicesFor, hs]

theorem lookupA_fold_none (audio : AudioBuffer) (stream : List Segment) :
    ∀ (m : SpeakerMap) (spk : String), lookupA m spk = none →
      lookupA (stream.foldl (fun m g => addSegment m g.speaker (extract audio g)) m) spk
        = if spk ∈ stream.map Segment.speaker then some (slicesFor audio spk stream)
          else none := by
  induction stream with
  | nil => intro m spk h; simpa using h
  | cons g rest ih =>
    intro m spk h
    rw [List.foldl_cons]
    by_cases hs : g.speaker = spk
    · have h1 : lookupA (addSegment m g.speaker (extract audio g)) spk
          = some (extract audio g) := by
        rw [hs, lookupA_addSegment_self]
        simp [h]
      rw [lookupA_fold_some audio rest _ _ _ h1]
      simp [slicesFor, hs]
    · have hne : spk ≠ g.speaker := fun hc => hs hc.symm
      have h1 : lookupA (addSegment m g.speaker (extract audio g)) spk = none := by
        rw [lookupA_addSegment_ne _ _ _ _ hne]; exact h
      rw [ih _ _ h1]
      simp [slicesFor, hs, hne]

theorem keysOf_fold (audio : AudioBuffer) (stream : List Segment) :
    ∀ m : SpeakerMap,
      keysOf (stream.foldl (fun m g => addSegment m g.speaker (extract audio g)) m)
        = firstSeenFrom (keysOf m) (stream.map Segment.speaker) := by
  induction stream with
  | nil => intro m; simp [firstSeenFrom]
  | cons g rest ih =>
    intro m
    rw [List.foldl_cons, ih]
    simp only [List.map_cons, firstSeenFrom, List.foldl_cons, keysOf_addSegment]

theorem mem_firstSeenFrom (x : String) (l : List String) :
    ∀ acc : List String, x ∈ firstSeenFrom acc l ↔ x ∈ acc ∨ x ∈ l := by
  induction l with
  | nil => intro acc; simp [firstSeenFrom]
  | cons y rest ih =>
    intro acc
    simp only [firstSeenFrom, List.foldl_cons] at *
    rw [ih]
    by_cases hy : y ∈ acc
    · simp only [if_pos hy, List.mem_cons]
      constructor
      · rintro (h | h)
        · exact Or.inl h
        · exact Or.inr (Or.inr h)
      · rintro (h | h | h)
        · exact Or.inl h
        · exact Or.inl (h ▸ hy)
        · exact Or.inr h
    · simp only [if_neg hy, List.mem_append, List.mem_singleton, List.mem_cons]
      tauto

theorem nodup_firstSeenFrom (l : List String) :
    ∀ acc : List String, acc.Nodup → (firstSeenFrom acc l).Nodup := by
  induction l with
  | nil => intro acc h; simpa [firstSeenFrom] using h
  | cons y rest ih =>
    intro acc h
    simp only [firstSeenFrom, List.foldl_cons]
    by_cases hy : y ∈ acc
    · rw [if_pos hy]
      exact ih acc h
    · rw [if_neg hy]
      have hn : (acc ++ [y]).Nodup := by simp [List.nodup_append, h, hy]
      exact ih (acc ++ [y]) hn

/-- C1: in per-speaker merge mode, for every speaker label occurring in the
segment stream of one source file, the finalized buffer for that label is
exactly the concatenation, in emission order, of the slices extracted for
that label, starting from a fresh empty accumulator created on first sight
of the label. -/
theorem merge_buffer_is_ordered_concat (audio : AudioBuffer) (stream : List Segment)
    (spk : String) (h : spk ∈ stream.map Segment.speaker) :
    lookupA (speaker_segments audio stream) spk = some (slicesFor audio spk stream) := by
  unfold speaker_segments
  rw [lookupA_fold_none audio stream [] spk rfl, if_pos h]

/-- Witness for C1 at the scenario of the spec: stream with speakers A, B, A. -/
theorem merge_buffer_is_ordered_concat_witness :
    "A" ∈ ([⟨0, 2, "A"⟩, ⟨2, 3, "B"⟩, ⟨3, 5, "A"⟩] : List Segment).map Segment.speaker ∧
    lookupA (speaker_segments [1, 2, 3] [⟨0, 2, "A"⟩, ⟨2, 3, "B"⟩, ⟨3, 5, "A"⟩]) "A"
      = some (slicesFor [1, 2, 3] "A" [⟨0, 2, "A"⟩, ⟨2, 3, "B"⟩, ⟨3, 5, "A"⟩]) :=
  ⟨by decide, merge_buffer_is_ordered_concat _ _ _ (by decide)⟩

/-- C8: the completed mapping enumerates speaker labels in first-seen order
of the stream: its key list equals the stream label list with later
duplicates removed (first occurrence kept), it is duplicate-free, and it
contains exactly the labels occurring in the stream. It is a function of
the stream, hence deterministic. -/
theorem speaker_map_first_seen_order (audio : AudioBuffer) (stream : List Segment) :
    keysOf (speaker_segments audio stream) = firstSeen (stream.map Segment.speaker) ∧
    (keysOf (speaker_segments audio stream)).Nodup ∧
    ∀ s, s ∈ keysOf (speaker_segments audio stream) ↔ s ∈ stream.map Segment.speaker := by
  have hk : keysOf (speaker_segments audio stream)
      = firstSeen (stream.map Segment.speaker) := by
    unfold speaker_segments firstSeen
    rw [keysOf_fold audio stream []]
    rfl
  refine ⟨hk, ?_, ?_⟩
  · rw [hk]
    exact nodup_firstSeenFrom _ [] List.nodup_nil
  · intro s
    rw [hk]
    unfold firstSeen
    rw [mem_firstSeenFrom]
    simp

/-- A file on disk: either a well-formed WAV carrying its decoded audio, or
a foreign/corrupt file on which AudioSegment.from_wav raises. -/
inductive WavFile where
  | wav (buf : AudioBuffer)
  | foreign (tag : Nat)
deriving DecidableEq, Repr

/-- Embedding of AudioSegment.from_wav: succeeds exactly on well-formed WAV
files (the WAV codec is assumed losslessly round-tripping, spec section 6). -/
def decode : WavFile → Option AudioBuffer
  | .wav b => some b
  | .foreign _ => none

/-- The output directory namespace: path string to file content, none
meaning the path does not exist. -/
abbrev FS := String → Option WavFile

/-- Writing (or overwriting) one file, as AudioSegment.export does. -/
def fsWrite (fs : FS) (path : String) (f : WavFile) : FS :=
  fun p => if p = path then some f else fs p

/-- Merge-mode output path (scd_n_files_and_save_all_voices.py line 60):
the speaker label is embedded verbatim, with no sanitization. -/
def speaker_file (base spk : String) : String :=
  base ++ "_speaker_" ++ spk ++ ".wav"

/-- Per-segment-mode output path (extract_voices.py line 108). -/
def segment_file (base spk : String) (n : Nat) : String :=
  base ++ "_speaker_" ++ spk ++ "_segment_" ++ toString n ++ ".wav"

/-- Persisting one speaker buffer in merge mode
(scd_n_files_and_save_all_voices.py lines 62-69): if the target path does
not exist the buffer is exported as the whole file; otherwise the existing
file is decoded and existing ++ buffer is re-exported. A decode failure is
an unhandled exception; the error payload is the untouched file system. -/
def persistOne (fs : FS) (path : String) (buf : AudioBuffer) : Except FS FS :=
  match fs path with
  | none => .ok (fsWrite fs path (.wav buf))
  | some f =>
    match decode f with
    | none => .error fs
    | some ex => .ok (fsWrite fs path (.wav (ex ++ buf)))

/-- The persistence loop over the finalized speaker map of one pass
(scd_n_files_and_save_all_voices.py lines 57-69); an exception aborts the
loop with the file system as it stood when the exception was raised. -/
def persistAll (fs : FS) (base : String) : List (String × AudioBuffer) → Except FS FS
  | [] => .ok fs
  | (spk, buf) :: rest =>
    match persistOne fs (speaker_file base spk) buf with
    | .error fsE => .error fsE
    | .ok fs' => persistAll fs' base rest

/-- Repeated merge-mode persistence to one fixed key path, one buffer per
call, modelling persist(K, B1); persist(K, B2); ... across passes or runs. -/
def persistSeq (fs : FS) (path : String) : List AudioBuffer → Except FS FS
  | [] => .ok fs
  | b :: rest =>
    match persistOne fs path b with
    | .error fsE => .error fsE
    | .ok fs' => persistSeq fs' path rest

theorem persistSeq_wav (path : String) (bufs : List AudioBuffer) :
    ∀ (fs : FS) (ex : AudioBuffer), fs path = some (.wav ex) →
      ∃ fs', persistSeq fs path bufs = .ok fs' ∧
        fs' path = some (.wav (ex ++ bufs.flatten)) := by
  induction bufs with
  | nil => intro fs ex h; exact ⟨fs, rfl, by simpa using h⟩
  | cons b rest ih =>
    intro fs ex h
    have hstep : persistOne fs path b = .ok (fsWrite fs path (.wav (ex ++ b))) := by
      unfold persistOne
      rw [h]
      rfl
    have hnext : fsWrite fs path (.wav (ex ++ b)) path = some (.wav (ex ++ b)) := by
      simp [fsWrite]
    obtain ⟨fs', h1, h2⟩ := ih (fsWrite fs path (.wav (ex ++ b))) (ex ++ b) hnext
    refine ⟨fs', ?_, ?_⟩
    · unfold persistSeq
      rw [hstep]
      exact h1
    · simpa [List.append_assoc] using h2

/-- C2: merge-mode persist writes the buffer whole when the target path is
fresh, prepends the decoded existing audio when the path exists, and hence
persisting a nonempty sequence of buffers to a fresh key leaves on disk the
flat concatenation of all of them in call order (flattening is associative,
so the result is independent of call grouping). -/
theorem persist_merge_concat :
    (∀ (fs : FS) (path : String) (b : AudioBuffer), fs path = none →
      ∃ fs', persistOne fs path b = .ok fs' ∧ fs' path = some (.wav b)) ∧
    (∀ (fs : FS) (path : String) (ex b : AudioBuffer), fs path = some (.wav ex) →
      ∃ fs', persistOne fs path b = .ok fs' ∧ fs' path = some (.wav (ex ++ b))) ∧
    (∀ (fs : FS) (path : String) (bufs : List AudioBuffer),
      fs path = none → bufs ≠ [] →
      ∃ fs', persistSeq fs path bufs = .ok fs' ∧
        fs' path = some (.wav bufs.flatten)) := by
  refine ⟨?_, ?_, ?_⟩
  · intro fs path b h
    refine ⟨fsWrite fs path (.wav b), ?_, by simp [fsWrite]⟩
    unfold persistOne
    rw [h]
  · intro fs path ex b h
    refine ⟨fsWrite fs path (.wav (ex ++ b)), ?_, by simp [fsWrite]⟩
    unfold persistOne
    rw [h]
    rfl
  · intro fs path bufs h hne
    obtain ⟨b, rest, rfl⟩ := List.exists_cons_of_ne_nil hne
    have hstep : persistOne fs path b = .ok (fsWrite fs path (.wav b)) := by
      unfold persistOne
      rw [h]
    have hnext : fsWrite fs path (.wav b) path = some (.wav b) := by
      simp [fsWrite]
    obtain ⟨fs', h1, h2⟩ := persistSeq_wav path rest _ b hnext
    refine ⟨fs', ?_, by simpa using h2⟩
    unfold persistSeq
    rw [hstep]
    exact h1

/-- Witness for C2 at concrete inputs: a fresh path, an existing WAV, and a
two-buffer sequence persist(K, A); persist(K, B) yielding A ++ B. -/
theorem persist_merge_concat_witness :
    (∃ fs', persistOne (fun _ => none) "k.wav" [1] = .ok fs' ∧
      fs' "k.wav" = some (.wav [1])) ∧
    (∃ fs', persistOne (fun p => if p = "k.wav" then some (.wav [1]) else none)
        "k.wav" [2] = .ok fs' ∧
      fs' "k.wav" = some (.wav ([1] ++ [2]))) ∧
    (∃ fs', persistSeq (fun _ => none) "k.wav" [[1], [2]] = .ok fs' ∧
      fs' "k.wav" = some (.wav ([[1], [2]] : List AudioBuffer).flatten)) :=
  ⟨persist_merge_concat.1 _ "k.wav" [1] rfl,
   persist_merge_concat.2.1 _ "k.wav" [1] [2] (by simp),
   persist_merge_concat.2.2 _ "k.wav" [[1], [2]] rfl (by simp)⟩

/-- C3 counterexample: the naming scheme is not injective on
(base_filename, speaker_label) pairs. The distinct pairs
(a_speaker_b, c) and (a, b_speaker_c) map to the same output path. -/
theorem speaker_file_pair_collision :
    speaker_file "a_speaker_b" "c" = speaker_file "a" "b_speaker_c" ∧
    ("a_speaker_b", "c") ≠ (("a", "b_speaker_c") : String × String) := by
  constructor
  · rfl
  · decide

/-- C3 amended: no sanitization is performed at all (the label is embedded
verbatim in the path), and for a fixed base filename the label-to-path map
is injective, so two distinct labels of the same source file never share an
output path; injectivity over full (base, label) pairs fails. -/
theorem speaker_file_label_injective (base s t : String)
    (h : speaker_file base s = speaker_file base t) : s = t := by
  have hd : ((base ++ "_speaker_").data ++ s.data) ++ ".wav".data
      = ((base ++ "_speaker_").data ++ t.data) ++ ".wav".data := by
    have := congrArg String.data h
    simpa [speaker_file, String.data_append] using this
  have h1 := List.append_cancel_right hd
  have h2 := List.append_cancel_left h1
  cases s
  cases t
  subst h2
  rfl

/-- Witness for C3 amended: labels differing only in characters that a
sanitizer could identify, such as A/B and A_B, keep distinct paths. -/
theorem speaker_file_label_injective_witness :
    speaker_file "call1" "A/B" = speaker_file "call1" "A/B" ∧
    ("A/B" : String) = "A/B" :=
  ⟨rfl, speaker_file_label_injective "call1" "A/B" "A/B" rfl⟩

/-- C4 counterexample: with a foreign-format file already at the path for
speaker A and a pending buffer for speaker B behind it, the persistence
loop stops with an exception at A; it does not continue, so the key B is
never persisted, contradicting the claim that the remaining keys of the
pass still persist. The file system at the exception is untouched. -/
theorem persist_decode_failure_aborts_pass :
    persistAll (fun p => if p = "f_speaker_A.wav" then some (WavFile.foreign 0) else none)
        "f" [("A", [1]), ("B", [2])]
      = .error (fun p => if p = "f_speaker_A.wav" then some (WavFile.foreign 0) else none) ∧
    (fun p => if p = "f_speaker_A.wav" then some (WavFile.foreign 0) else none)
        (speaker_file "f" "B") = none := by
  constructor
  · rfl
  · rfl

/-- C4 amended: when the existing file at a merge target fails to decode,
the exception from AudioSegment.from_wav propagates unhandled: the existing
file (and the whole file system) is left unchanged at that point, but the
failing key and every later key of the pass are not persisted — the loop
aborts instead of continuing, and no MergeConflictError type exists. -/
theorem persist_decode_failure_behavior (fs : FS) (base spk : String)
    (buf : AudioBuffer) (rest : List (String × AudioBuffer)) (f : WavFile)
    (hex : fs (speaker_file base spk) = some f) (hdec : decode f = none) :
    persistAll fs base ((spk, buf) :: rest) = .error fs := by
  cases f with
  | wav b => simp [decode] at hdec
  | foreign t =>
    unfold persistAll persistOne
    rw [hex]
    rfl

/-- Witness for C4 amended at a concrete corrupt file. -/
theorem persist_decode_failure_behavior_witness :
    (fun p => if p = "g_speaker_A.wav" then some (WavFile.foreign 3) else none)
        (speaker_file "g" "A") = some (.foreign 3) ∧
    decode (.foreign 3) = none ∧
    persistAll (fun p => if p = "g_speaker_A.wav" then some (WavFile.foreign 3) else none)
        "g" [("A", [7])]
      = .error (fun p => if p = "g_speaker_A.wav" then some (WavFile.foreign 3) else none) :=
  ⟨rfl, rfl,
   persist_decode_failure_behavior _ "g" "A" [7] [] (.foreign 3) rfl rfl⟩

/-- C5 counterexample: a segment whose end bound exceeds the source
duration (end 3 s over a 2.5 s buffer) is neither reported nor skipped:
its clamped slice (the whole remaining buffer) is appended to the speaker
accumulator and the pass continues, so the finalized buffer for A is the
nonempty clamped audio rather than the empty buffer a skip would leave. -/
theorem extract_out_of_range_not_skipped :
    3 * 1000 > (List.replicate 2500 0 : AudioBuffer).length ∧
    lookupA (speaker_segments (List.replicate 2500 0) [⟨0, 3, "A"⟩]) "A"
      = some (List.replicate 2500 0) ∧
    (List.replicate 2500 0 : AudioBuffer) ≠ [] := by
  refine ⟨by rw [List.length_replicate]; norm_num, ?_, ?_⟩
  · show lookupA (addSegment [] "A" (extract (List.replicate 2500 0) ⟨0, 3, "A"⟩)) "A" = _
    norm_num [addSegment, lookupA, extract, List.take_replicate]
  · intro hc
    have hlen := congrArg List.length hc
    rw [List.length_replicate] at hlen
    exact absurd hlen (by norm_num)

/-- C5 amended: extraction silently clamps out-of-range bounds with Python
slice semantics — the slice length is min(end * 1000, duration) - start * 1000
— and the slice, clamped or not, is always appended to the accumulator of
its speaker: no RangeError is raised, nothing is reported, and no segment
is ever skipped. -/
theorem extract_clamps_silently :
    (∀ (audio : AudioBuffer) (g : Segment),
      (extract audio g).length = min (g.end_ * 1000) audio.length - g.start * 1000) ∧
    (∀ (audio : AudioBuffer) (m : SpeakerMap) (g : Segment),
      lookupA (addSegment m g.speaker (extract audio g)) g.speaker
        = some ((lookupA m g.speaker).getD [] ++ extract audio g)) := by
  refine ⟨?_, ?_⟩
  · intro audio g
    simp [extract]
  · intro audio m g
    exact lookupA_addSegment_self m g.speaker (extract audio g)

/-- Per-segment-mode slicing-and-naming loop of extract_voices.py lines
103-110 with the running counter segment_count starting at the given n:
each emitted segment yields the pair of its output path and its slice, in
emission order, with the counter increasing by one per emitted segment
regardless of speaker. -/
def exportsFrom (audio : AudioBuffer) (base : String) (n : Nat) :
    List Segment → List (String × AudioBuffer)
  | [] => []
  | g :: rest =>
    (segment_file base g.speaker n, extract audio g) :: exportsFrom audio base (n + 1) rest

/-- Exports of one full per-segment pass, counter starting at 0
(extract_voices.py line 104). -/
def per_segment_exports (audio : AudioBuffer) (base : String)
    (stream : List Segment) : List (String × AudioBuffer) :=
  exportsFrom audio base 0 stream

/-- Sequential file writes of the per-segment pass: AudioSegment.export
opens the target for writing and replaces any previous content. -/
def writeAll (fs : FS) : List (String × AudioBuffer) → FS
  | [] => fs
  | (p, b) :: rest => writeAll (fsWrite fs p (.wav b)) rest

/-- One full per-segment pass over one source file: slice and name every
segment, write each slice to its path in emission order. Total: the loop
raises no exception. -/
def extract_voices_pass (fs : FS) (audio : AudioBuffer) (base : String)
    (stream : List Segment) : FS :=
  writeAll fs (per_segment_exports audio base stream)

/-- Content of the last write to a given path among a list of writes. -/
def lastWrite : List (String × AudioBuffer) → String → Option AudioBuffer
  | [], _ => none
  | (q, b) :: rest, p =>
    match lastWrite rest p with
    | some c => some c
    | none => if p = q then some b else none

theorem writeAll_apply (l : List (String × AudioBuffer)) :
    ∀ (fs : FS) (p : String),
      writeAll fs l p =
        match lastWrite l p with
        | some c => some (.wav c)
        | none => fs p := by
  induction l with
  | nil => intro fs p; rfl
  | cons e rest ih =>
    obtain ⟨q, b⟩ := e
    intro fs p
    rw [show writeAll fs ((q, b) :: rest) = writeAll (fsWrite fs q (.wav b)) rest from rfl]
    rw [ih]
    cases hl : lastWrite rest p with
    | some c => simp [lastWrite, hl]
    | none =>
      simp only [lastWrite, hl, fsWrite]
      by_cases hpq : p = q
      · simp [hpq]
      · simp [hpq]

theorem lastWrite_isSome_of_mem (l : List (String × AudioBuffer)) (p : String)
    (h : p ∈ l.map Prod.fst) : ∃ c, lastWrite l p = some c := by
  induction l with
  | nil => simp at h
  | cons e rest ih =>
    obtain ⟨q, b⟩ := e
    cases hl : lastWrite rest p with
    | some c => exact ⟨c, by simp [lastWrite, hl]⟩
    | none =>
      simp only [List.map_cons, List.mem_cons] at h
      rcases h with h | h
      · subst h
        exact ⟨b, by simp [lastWrite, hl]⟩
      · obtain ⟨c, hc⟩ := ih h
        rw [hc] at hl
        cases hl

/-- C7: in per-segment mode the n-th emitted segment of a source file is
exported to base_speaker_label_segment_n.wav where n starts at 0 for the
file and increases by one per emitted segment across all speakers (stated
via List.enum, which pairs each segment with its emission index), while
the merge-mode filename is base_speaker_label.wav with no segment
component. -/
theorem output_filename_pattern :
    (∀ (audio : AudioBuffer) (base : String) (stream : List Segment),
      (per_segment_exports audio base stream).map Prod.fst
        = stream.enum.map (fun e => segment_file base e.2.speaker e.1)) ∧
    (∀ (base spk : String) (n : Nat),
      segment_file base spk n
        = base ++ "_speaker_" ++ spk ++ "_segment_" ++ toString n ++ ".wav") ∧
    (∀ base spk : String,
      speaker_file base spk = base ++ "_speaker_" ++ spk ++ ".wav") := by
  have key : ∀ (audio : AudioBuffer) (base : String) (stream : List Segment) (n : Nat),
      (exportsFrom audio base n stream).map Prod.fst
        = (stream.enumFrom n).map (fun e => segment_file base e.2.speaker e.1) := by
    intro audio base stream
    induction stream with
    | nil => intro n; rfl
    | cons g rest ih =>
      intro n
      simp only [exportsFrom, List.map_cons, List.enumFrom, ih]
  exact ⟨fun audio base stream => key audio base stream 0,
    fun base spk n => rfl, fun base spk => rfl⟩

/-- C9: per-segment export silently replaces whatever was at the target
path. The pass result at every exported path is independent of the prior
content there (so an existing file is overwritten, never merged and never
an error — the pass is a total function), and re-running the identical
pass on its own output changes nothing, since segment numbering restarts
at 0 and reproduces the same names and slices. -/
theorem per_segment_overwrites :
    (∀ (fs₁ fs₂ : FS) (audio : AudioBuffer) (base : String)
        (stream : List Segment) (p : String),
      p ∈ (per_segment_exports audio base stream).map Prod.fst →
      extract_voices_pass fs₁ audio base stream p
        = extract_voices_pass fs₂ audio base stream p) ∧
    (∀ (fs : FS) (audio : AudioBuffer) (base : String)
        (stream : List Segment) (p : String),
      extract_voices_pass (extract_voices_pass fs audio base stream) audio base stream p
        = extract_voices_pass fs audio base stream p) := by
  constructor
  · intro fs₁ fs₂ audio base stream p hp
    obtain ⟨c, hc⟩ := lastWrite_isSome_of_mem _ p hp
    unfold extract_voices_pass
    rw [writeAll_apply, writeAll_apply, hc]
  · intro fs audio base stream p
    unfold extract_voices_pass
    rw [writeAll_apply, writeAll_apply]
    cases hl : lastWrite (per_segment_exports audio base stream) p with
    | some c => rfl
    | none => rfl

/-- Witness for C9 at a concrete pass: one segment of one speaker, run
against an empty directory and against a directory already holding a file
at the exported path. -/
theorem per_segment_overwrites_witness :
    segment_file "c" "A" 0 ∈
      (per_segment_exports [5] "c" [⟨0, 1, "A"⟩]).map Prod.fst ∧
    extract_voices_pass (fun _ => none) [5] "c" [⟨0, 1, "A"⟩] (segment_file "c" "A" 0)
      = extract_voices_pass
          (fun p => if p = segment_file "c" "A" 0 then some (WavFile.foreign 9) else none)
          [5] "c" [⟨0, 1, "A"⟩] (segment_file "c" "A" 0) :=
  ⟨by decide, (per_segment_overwrites.1 _ _ [5] "c" [⟨0, 1, "A"⟩] _ (by decide))⟩

/-- One input file of the batch: its directory-listing name, its on-disk
content as AudioSegment.from_wav sees it, and the segment stream the
diarization pipeline yields for it. -/
structure FileInput where
  name : String
  wav : WavFile
  stream : List Segment

/-- Embedding of base_filename = os.path.splitext(audio_file)[0] (line 58);
the listing is prefiltered by endswith(".wav") (line 32), so splitext
strips exactly that suffix. -/
def base_filename (s : String) : String :=
  if s.endsWith ".wav" then s.dropRight 4 else s

/-- Merge-mode processing of one file (scd_n_files_and_save_all_voices.py
lines 36-69): decode the source audio, group the diarized segments by
speaker, persist the speaker map. Any exception propagates. -/
def processFile (fs : FS) (f : FileInput) : Except FS FS :=
  match decode f.wav with
  | none => .error fs
  | some audio => persistAll fs (base_filename f.name) (speaker_segments audio f.stream)

/-- The batch loop over all listed files (lines 35-72). There is no
try/except anywhere, so the first exception ends the whole loop. -/
def batch (fs : FS) : List FileInput → Except FS FS
  | [] => .ok fs
  | f :: rest =>
    match processFile fs f with
    | .error fsE => .error fsE
    | .ok fs' => batch fs' rest

/-- C6 counterexample: with a first file whose audio fails to decode and a
healthy second file behind it, the batch stops at the first file with the
file system untouched; the second file is never processed (its speaker
output path stays absent), contradicting the claim that the driver
proceeds with every remaining file. -/
theorem batch_failure_aborts :
    batch (fun _ => none)
        [⟨"a.wav", .foreign 0, []⟩, ⟨"b.wav", .wav [5], [⟨0, 1, "A"⟩]⟩]
      = .error (fun _ => none) ∧
    (fun _ => none : FS) (speaker_file "b" "A") = none := by
  constructor
  · rfl
  · rfl

/-- C6 amended: a failure while processing one file propagates as an
unhandled exception that aborts the whole batch: files listed after the
failing one are not processed at all (files before it were already fully
processed when the exception was raised). -/
theorem batch_error_propagates (fs : FS) (f : FileInput) (rest : List FileInput)
    (fsE : FS) (h : processFile fs f = .error fsE) :
    batch fs (f :: rest) = .error fsE := by
  unfold batch
  rw [h]

/-- Witness for C6 amended at a concrete undecodable first file. -/
theorem batch_error_propagates_witness :
    processFile (fun _ => none) ⟨"a.wav", .foreign 0, []⟩ = .error (fun _ => none) ∧
    batch (fun _ => none)
        [⟨"a.wav", .foreign 0, []⟩, ⟨"b.wav", .wav [5], [⟨0, 1, "A"⟩]⟩]
      = .error (fun _ => none) :=
  ⟨rfl, batch_error_propagates (fun _ => none) ⟨"a.wav", .foreign 0, []⟩
    [⟨"b.wav", .wav [5], [⟨0, 1, "A"⟩]⟩] (fun _ => none) rfl⟩

/-- Output paths derived from the speaker labels occurring in a stream. -/
def derivedPaths (base : String) (stream : List Segment) : List String :=
  (stream.map Segment.speaker).map (speaker_file base)

/-- File system left by a persistence computation, whether it completed or
was aborted by an exception. -/
def resultFS : Except FS FS → FS
  | .ok fs => fs
  | .error fs => fs

/-- Two file systems agreeing on a set of paths. -/
def agreeOn (D : List String) (f g : FS) : Prop :=
  ∀ q ∈ D, f q = g q

/-- Two persistence outcomes with the same control flow whose file systems
agree on a set of paths. -/
def exceptAgree (D : List String) : Except FS FS → Except FS FS → Prop
  | .ok f, .ok g => agreeOn D f g
  | .error f, .error g => agreeOn D f g
  | _, _ => False

theorem mem_keysOf_speaker_segments (audio : AudioBuffer) (stream : List Segment)
    (s : String) :
    s ∈ keysOf (speaker_segments audio stream) ↔ s ∈ stream.map Segment.speaker := by
  unfold speaker_segments
  rw [keysOf_fold audio stream []]
  show s ∈ firstSeenFrom [] _ ↔ _
  rw [mem_firstSeenFrom]
  simp

theorem persistAll_frame (base : String) :
    ∀ (entries : List (String × AudioBuffer)) (fs : FS) (p : String),
      p ∉ entries.map (fun e => speaker_file base e.1) →
      resultFS (persistAll fs base entries) p = fs p := by
  intro entries
  induction entries with
  | nil => intro fs p _; rfl
  | cons e rest ih =>
    obtain ⟨spk, buf⟩ := e
    intro fs p hp
    simp only [List.map_cons, List.mem_cons, not_or] at hp
    obtain ⟨hp1, hp2⟩ := hp
    unfold persistAll persistOne
    cases hf : fs (speaker_file base spk) with
    | none =>
      rw [show resultFS (persistAll (fsWrite fs (speaker_file base spk) (.wav buf)) base rest) p
          = fsWrite fs (speaker_file base spk) (.wav buf) p from ih _ p hp2]
      simp [fsWrite, hp1]
    | some f =>
      cases f with
      | foreign t => rfl
      | wav ex =>
        show resultFS (persistAll (fsWrite fs (speaker_file base spk)
          (.wav (ex ++ buf))) base rest) p = fs p
        rw [ih _ p hp2]
        simp [fsWrite, hp1]

theorem persistAll_reads (base : String) (D : List String) :
    ∀ (entries : List (String × AudioBuffer)) (fs₁ fs₂ : FS),
      (∀ e ∈ entries, speaker_file base e.1 ∈ D) →
      agreeOn D fs₁ fs₂ →
      exceptAgree D (persistAll fs₁ base entries) (persistAll fs₂ base entries) := by
  intro entries
  induction entries with
  | nil => intro fs₁ fs₂ _ hag; exact hag
  | cons e rest ih =>
    obtain ⟨spk, buf⟩ := e
    intro fs₁ fs₂ hD hag
    have hpath : speaker_file base spk ∈ D := hD (spk, buf) (List.mem_cons_self _ _)
    have heq : fs₁ (speaker_file base spk) = fs₂ (speaker_file base spk) := hag _ hpath
    have hrest : ∀ e ∈ rest, speaker_file base e.1 ∈ D :=
      fun e he => hD e (List.mem_cons_of_mem _ he)
    unfold persistAll persistOne
    cases hf : fs₁ (speaker_file base spk) with
    | none =>
      rw [heq] at hf
      rw [hf]
      refine ih _ _ hrest ?_
      intro q hq
      by_cases hqp : q = speaker_file base spk
      · simp [fsWrite, hqp]
      · simp [fsWrite, hqp, hag q hq]
    | some f =>
      rw [heq] at hf
      rw [hf]
      cases f with
      | foreign t => exact hag
      | wav ex =>
        refine ih _ _ hrest ?_
        intro q hq
        by_cases hqp : q = speaker_file base spk
        · simp [fsWrite, hqp]
        · simp [fsWrite, hqp, hag q hq]

/-- C10: the merge-mode persistence phase of one pass touches only the
paths derived from speaker labels occurring in the segment stream: every
other path keeps exactly its prior content whether or not the phase
aborted, and the phase reads nothing outside those paths — two directory
states agreeing on the derived paths produce the same control flow and
agreeing results on them. -/
theorem merge_pass_frame (audio : AudioBuffer) (base : String) (stream : List Segment) :
    (∀ (fs : FS) (p : String), p ∉ derivedPaths base stream →
      resultFS (persistAll fs base (speaker_segments audio stream)) p = fs p) ∧
    (∀ fs₁ fs₂ : FS, agreeOn (derivedPaths base stream) fs₁ fs₂ →
      exceptAgree (derivedPaths base stream)
        (persistAll fs₁ base (speaker_segments audio stream))
        (persistAll fs₂ base (speaker_segments audio stream))) := by
  have hkeys : ∀ e ∈ speaker_segments audio stream,
      speaker_file base e.1 ∈ derivedPaths base stream := by
    intro e he
    have h1 : e.1 ∈ keysOf (speaker_segments audio stream) :=
      List.mem_map_of_mem Prod.fst he
    have h2 : e.1 ∈ stream.map Segment.speaker :=
      (mem_keysOf_speaker_segments audio stream e.1).mp h1
    exact List.mem_map_of_mem (speaker_file base) h2
  constructor
  · intro fs p hp
    refine persistAll_frame base _ fs p ?_
    intro hc
    rcases List.mem_map.mp hc with ⟨e, he, hpe⟩
    exact hp (hpe ▸ hkeys e he)
  · intro fs₁ fs₂ hag
    exact persistAll_reads base _ _ fs₁ fs₂ hkeys hag

/-- Witness for C10 at one concrete pass: an unrelated path keeps its
content, and two directories agreeing on the derived paths give agreeing
results there. -/
theorem merge_pass_frame_witness :
    ("other.wav" ∉ derivedPaths "x" [⟨0, 1, "A"⟩]) ∧
    resultFS (persistAll (fun _ => none) "x"
        (speaker_segments [1] [⟨0, 1, "A"⟩])) "other.wav"
      = (fun _ => none : FS) "other.wav" ∧
    exceptAgree (derivedPaths "x" [⟨0, 1, "A"⟩])
      (persistAll (fun _ => none) "x" (speaker_segments [1] [⟨0, 1, "A"⟩]))
      (persistAll (fun _ => none) "x" (speaker_segments [1] [⟨0, 1, "A"⟩])) :=
  ⟨by decide,
   (merge_pass_frame [1] "x" [⟨0, 1, "A"⟩]).1 (fun _ => none) "other.wav" (by decide),
   (merge_pass_frame [1] "x" [⟨0, 1, "A"⟩]).2 (fun _ => none) (fun _ => none)
     (fun q _ => rfl)⟩

end VoiceSCD
